import Mathlib

/-!
Verification of the json-to-csv converter (json_to_csv_converter.py).

The development shallowly embeds the converter: parsed JSON records become
the inductive type JValue (a nested string-keyed mapping whose leaves are
strings, integers, booleans and null, as in the data model of the spec),
Python functions that can raise become functions into Except PyErr, and
each regular-expression substitution of the line normalizer is encoded as
an explicit pattern term interpreted by a small backtracking matcher with
Python re semantics (leftmost match, greedy quantifiers, ordered
alternation, global non-overlapping substitution).
-/

mutual

inductive JValue where
  | str (s : String)
  | int (n : Int)
  | bool (b : Bool)
  | null
  | obj (fields : JFields)

inductive JFields where
  | nil
  | cons (k : String) (v : JValue) (rest : JFields)

end

deriving instance DecidableEq for JValue, JFields

/-- Python exception kinds that the converter can raise: `TypeError` from
`get_nested_value` probing a non-mapping, and the parse failure of
`json.loads` (the MalformedRecordError of the spec). -/
inductive PyErr where
  | typeError
  | malformedRecord
deriving DecidableEq

/-- First-match association lookup; Python dict keys are unique, so this is
dict membership and indexing at once. -/
def JFields.lookup : JFields → String → Option JValue
  | .nil, _ => none
  | .cons k v rest, key => if k = key then some v else JFields.lookup rest key

/-- Python `key in d` for a dict `d`. -/
def JFields.hasKey (fs : JFields) (key : String) : Bool :=
  (fs.lookup key).isSome

/-- Does `hay` start with `needle`? (helper for Python substring tests). -/
def startsWithL : List Char → List Char → Bool
  | _, [] => true
  | [], _ :: _ => false
  | h :: hs, n :: ns => h = n && startsWithL hs ns

/-- Python substring containment `needle in hay` on strings. -/
def containsSub : List Char → List Char → Bool
  | [], needle => needle.isEmpty
  | h :: rest, needle => startsWithL (h :: rest) needle || containsSub rest needle

/-- Python `key.split(".", 1)` combined with the test `"." in key`:
`none` when the key has no dot, otherwise the parts before and after the
first dot. -/
def splitAtDot : List Char → Option (List Char × List Char)
  | [] => none
  | c :: rest =>
    if c = '.' then some ([], rest)
    else
      match splitAtDot rest with
      | none => none
      | some (a, b) => some (c :: a, b)


/-- Python `key in d`: dict membership for mappings, substring search for
strings, and a TypeError for numbers and booleans. -/
def pyContains (d : JValue) (key : String) : Except PyErr Bool :=
  match d with
  | .obj fs => .ok (fs.hasKey key)
  | .str s => .ok (containsSub s.toList key.toList)
  | _ => .error .typeError

/-- Python `d[key]` with a string key: dict indexing for mappings (KeyError
folded into typeError; unreachable after a positive membership test), a
TypeError otherwise. -/
def pyIndex (d : JValue) (key : String) : Except PyErr JValue :=
  match d with
  | .obj fs =>
    match fs.lookup key with
    | some v => .ok v
    | none => .error .typeError
  | _ => .error .typeError

/-- Recursive core of `get_nested_value`, on the character list of the key.
Mirrors the source line by line: the `d is None` guard, the one-segment
case with its membership test, and the split at the first dot followed by
the recursive call.  The fuel argument only bounds the recursion depth
(each recursive call drops at least the head segment and its dot, so any
fuel above the key length is enough and the exhaustion branch is dead
code). -/
def gnvGo : Nat → JValue → List Char → Except PyErr JValue
  | 0, _, _ => .error .typeError
  | fuel + 1, d, key =>
    match d with
    | .null => .ok .null
    | _ =>
      match splitAtDot key with
      | none =>
        match pyContains d (String.mk key) with
        | .error e => .error e
        | .ok false => .ok .null
        | .ok true => pyIndex d (String.mk key)
      | some (bk, sk) =>
        match pyContains d (String.mk bk) with
        | .error e => .error e
        | .ok false => .ok .null
        | .ok true =>
          match pyIndex d (String.mk bk) with
          | .error e => .error e
          | .ok sub => gnvGo fuel sub sk

/-- `get_nested_value(d, key)` of the source. -/
def get_nested_value (d : JValue) (key : String) : Except PyErr JValue :=
  gnvGo (key.toList.length + 1) d key.toList

/-- Python truthiness choice `"{0}.{1}".format(parent_key, k) if parent_key else k`. -/
def joinKey (parentKey k : String) : String :=
  if parentKey = "" then k else parentKey ++ "." ++ k

mutual

/-- Flattening of a mapping value (the `isinstance(v, MutableMapping)`
recursion of `get_column_names`); non-mappings contribute nothing here. -/
def flatV (parentKey : String) : JValue → List (String × JValue)
  | .obj fs => flatF parentKey fs
  | _ => []

/-- The flattened (column-name, leaf-value) pairs of `get_column_names`
before any dict conversion: depth-first, insertion order, recursing into
mapping values with the extended dotted prefix. -/
def flatF (parentKey : String) : JFields → List (String × JValue)
  | .nil => []
  | .cons k v rest =>
    (match v with
     | .obj _ => flatV (joinKey parentKey k) v
     | _ => [(joinKey parentKey k, v)]) ++ flatF parentKey rest

end

/-- One step of Python `dict(pairs)`: a later pair with a present key
overwrites the value in place, a new key is appended. -/
def pyDictIns (acc : List (String × JValue)) (k : String) (v : JValue) :
    List (String × JValue) :=
  if acc.any (fun kv => kv.1 == k) then
    acc.map (fun kv => if kv.1 == k then (k, v) else kv)
  else acc ++ [(k, v)]

/-- Python `dict(pairs)` as an insertion-ordered association list. -/
def pyDict (l : List (String × JValue)) : List (String × JValue) :=
  l.foldl (fun acc kv => pyDictIns acc kv.1 kv.2) []

mutual

/-- Dict returned by the recursive `get_column_names` call on a mapping
value. -/
def gcnV (parentKey : String) : JValue → List (String × JValue)
  | .obj fs => pyDict (gcnList parentKey fs)
  | _ => []

/-- The pair list built by the loop of `get_column_names`: the recursive
call returns a dict, whose items are spliced in. -/
def gcnList (parentKey : String) : JFields → List (String × JValue)
  | .nil => []
  | .cons k v rest =>
    (match v with
     | .obj _ => gcnV (joinKey parentKey k) v
     | _ => [(joinKey parentKey k, v)]) ++ gcnList parentKey rest

end

/-- `get_column_names(line_contents, parent_key)` of the source; the result
dict is modelled as an insertion-ordered association list.  The source only
ever applies it to mappings. -/
def get_column_names (d : JValue) (parentKey : String) : List (String × JValue) :=
  gcnV parentKey d

mutual

/-- Simplified Python repr of a value (the converter only reaches the
string, int and bool cases from `get_row`; the object case models the
dict repr shape and no claim depends on its details). -/
def pyRepr : JValue → String
  | .str s => "\x27" ++ s ++ "\x27"
  | .int n => toString n
  | .bool b => if b then "True" else "False"
  | .null => "None"
  | .obj fs => "\x7b" ++ pyReprF fs ++ "\x7d"

/-- Field part of the dict repr. -/
def pyReprF : JFields → String
  | .nil => ""
  | .cons k v .nil => "\x27" ++ k ++ "\x27: " ++ pyRepr v
  | .cons k v rest => "\x27" ++ k ++ "\x27: " ++ pyRepr v ++ ", " ++ pyReprF rest

end

/-- Python `"{0}".format(x)`: a string formats to itself, anything else to
its str form. -/
def pyStr : JValue → String
  | .str s => s
  | v => pyRepr v

/-- `get_row(line_contents, column_names)`: one cell per column; a string
or other non-None value is formatted, a None (the missing sentinel as well
as a present null leaf) becomes the empty cell; a TypeError from
`get_nested_value` propagates. -/
def get_row (line_contents : JValue) (column_names : List String) :
    Except PyErr (List String) :=
  match column_names with
  | [] => .ok []
  | c :: rest =>
    match get_nested_value line_contents c with
    | .error e => .error e
    | .ok lv =>
      let cell := match lv with
        | .null => ""
        | v => pyStr v
      match get_row line_contents rest with
      | .error e => .error e
      | .ok row => .ok (cell :: row)

/-- A record key the spec's dotted-path scheme can address: nonempty and
dot-free. -/
def keyOk (k : String) : Bool :=
  !(k == "") && (splitAtDot k.toList).isNone

mutual

/-- Well-formed record: every mapping has pairwise distinct, nonempty,
dot-free keys (Python dicts guarantee distinctness; JSON allows the rest,
which is what the corrected claims exclude). -/
def wfV : JValue → Bool
  | .obj fs => wfF fs
  | _ => true

/-- Well-formedness of a field list. -/
def wfF : JFields → Bool
  | .nil => true
  | .cons k v rest => keyOk k && !(JFields.hasKey rest k) && wfV v && wfF rest

end

/-- Fueled core of specification-level path resolution: follow the dotted
path through mappings only; `none` when a segment is missing or a
non-mapping is reached with segments remaining. -/
def resolvesGo : Nat → JValue → List Char → Option JValue
  | 0, _, _ => none
  | fuel + 1, d, key =>
    match d with
    | .obj fs =>
      match splitAtDot key with
      | none => fs.lookup (String.mk key)
      | some (bk, sk) =>
        match fs.lookup (String.mk bk) with
        | some sub => resolvesGo fuel sub sk
        | none => none
    | _ => none

/-- Specification-level path resolution used to state the corrected claims. -/
def resolvesTo (d : JValue) (key : List Char) : Option JValue :=
  resolvesGo (key.length + 1) d key

/-- Fueled core of `safeAt`. -/
def safeGo : Nat → JValue → List Char → Bool
  | 0, _, _ => false
  | fuel + 1, d, key =>
    match d with
    | .null => true
    | .obj fs =>
      match splitAtDot key with
      | none => true
      | some (bk, sk) =>
        match fs.lookup (String.mk bk) with
        | some sub => safeGo fuel sub sk
        | none => true
    | _ => false

/-- Traversal of `key` through `d` meets only mappings and null: the
region on which `get_nested_value` is exception-free. -/
def safeAt (d : JValue) (key : List Char) : Bool :=
  safeGo (key.length + 1) d key

/-- Fueled core of `hasNullAt`. -/
def hasNullGo : Nat → JValue → List Char → Bool
  | 0, _, _ => false
  | fuel + 1, d, key =>
    match d with
    | .obj fs =>
      match splitAtDot key with
      | none =>
        match fs.lookup (String.mk key) with
        | some .null => true
        | _ => false
      | some (bk, sk) =>
        match fs.lookup (String.mk bk) with
        | some sub => hasNullGo fuel sub sk
        | none => false
    | _ => false

/-- The path resolves through mappings and ends at a present null leaf. -/
def hasNullAt (d : JValue) (key : List Char) : Bool :=
  hasNullGo (key.length + 1) d key

/-- Fueled core of `absentAt`. -/
def absentGo : Nat → JValue → List Char → Bool
  | 0, _, _ => false
  | fuel + 1, d, key =>
    match d with
    | .obj fs =>
      match splitAtDot key with
      | none => (fs.lookup (String.mk key)).isNone
      | some (bk, sk) =>
        match fs.lookup (String.mk bk) with
        | some sub => absentGo fuel sub sk
        | none => true
    | _ => false

/-- The path is absent: traversal through mappings reaches a mapping from
which the next segment is missing. -/
def absentAt (d : JValue) (key : List Char) : Bool :=
  absentGo (key.length + 1) d key

/-- The keys of a field list, in order. -/
def JFields.keys : JFields → List String
  | .nil => []
  | .cons k _ rest => k :: keys rest

/-- The segment of a dotted path before its first dot (the whole path when
there is none). -/
def firstSeg (l : List Char) : List Char :=
  match splitAtDot l with
  | none => l
  | some (a, _) => a

/-! ### A small regex engine with Python re semantics

The line normalizer of the source is a fixed chain of re.sub calls.  Each
pattern is encoded below as an explicit term of the Pat type, and matchP
interprets patterns with the semantics of the Python re module restricted
to the constructs those patterns use: literal characters, the classes
backslash-w, backslash-s and bracket classes with ranges and negation, the
any-character class (backslash-w union backslash-W), concatenation,
ordered alternation, greedy star and plus, numbered capturing groups, and
single-character negative lookbehind.  Matching is leftmost with
backtracking, preferring more repetitions (greedy) and earlier
alternatives; reSub is the global, non-overlapping, left-to-right
substitution of re.sub, matching against the original text only. -/

/-- One item of a bracket character class. -/
inductive ClsIt where
  | ch (c : Char)
  | rng (lo hi : Char)
  | word
deriving DecidableEq

/-- Python backslash-w on the ASCII inputs of this dataset. -/
def isWordChar (c : Char) : Bool := c.isAlpha || c.isDigit || c = '_'

/-- Python backslash-s (the whitespace the inputs contain). -/
def isSpaceChar (c : Char) : Bool := c = ' ' || c = '\t' || c = '\n' || c = '\r'

/-- Does a class item accept the character? -/
def clsItMatch (c : Char) : ClsIt → Bool
  | .ch c2 => c = c2
  | .rng lo hi => lo ≤ c && c ≤ hi
  | .word => isWordChar c

/-- Regex abstract syntax for the patterns of the source. -/
inductive Pat where
  | eps
  | lit (c : Char)
  | wordC
  | spaceC
  | anyC
  | cls (neg : Bool) (items : List ClsIt)
  | seq (p q : Pat)
  | alt (p q : Pat)
  | star (p : Pat)
  | group (i : Nat) (p : Pat)
  | nlb (c : Char)
deriving DecidableEq

/-- Greedy plus: one copy followed by a greedy star, as in Python. -/
def Pat.plus (p : Pat) : Pat := .seq p (.star p)

/-- Captured groups: most recent capture of an index first. -/
def Caps := List (Nat × List Char)

/-- Group lookup; absent groups give the empty string (never reached by the
patterns below, which only reference groups their match has bound). -/
def getCap (caps : Caps) (i : Nat) : List Char :=
  match List.find? (fun x => x.1 == i) caps with
  | some x => x.2
  | none => []

/-- Backtracking matcher in continuation-passing style, anchored at the
current position.  left holds the already-consumed original characters in
reverse (for lookbehind), s the remaining input.  The fuel only bounds the
recursion depth; every use below supplies far more than any match can
consume. -/
def matchP : Nat → Pat → List Char → List Char → Caps →
    (List Char → List Char → Caps → Option (List Char × List Char × Caps)) →
    Option (List Char × List Char × Caps)
  | 0, _, _, _, _, _ => none
  | fuel + 1, p, left, s, caps, k =>
    match p with
    | .eps => k left s caps
    | .lit c =>
      match s with
      | [] => none
      | x :: rest => if x = c then k (x :: left) rest caps else none
    | .wordC =>
      match s with
      | [] => none
      | x :: rest => if isWordChar x then k (x :: left) rest caps else none
    | .spaceC =>
      match s with
      | [] => none
      | x :: rest => if isSpaceChar x then k (x :: left) rest caps else none
    | .anyC =>
      match s with
      | [] => none
      | x :: rest => k (x :: left) rest caps
    | .cls neg items =>
      match s with
      | [] => none
      | x :: rest =>
        if (items.any (clsItMatch x)) != neg then k (x :: left) rest caps else none
    | .seq p1 p2 =>
      matchP fuel p1 left s caps (fun l2 s2 c2 => matchP fuel p2 l2 s2 c2 k)
    | .alt p1 p2 =>
      match matchP fuel p1 left s caps k with
      | some r => some r
      | none => matchP fuel p2 left s caps k
    | .star p1 =>
      match matchP fuel p1 left s caps (fun l2 s2 c2 =>
          if s2.length < s.length then matchP fuel (.star p1) l2 s2 c2 k
          else k l2 s2 c2) with
      | some r => some r
      | none => k left s caps
    | .group i p1 =>
      matchP fuel p1 left s caps (fun l2 s2 c2 =>
        k l2 s2 ((i, s.take (s.length - s2.length)) :: c2))
    | .nlb c =>
      match left with
      | [] => k left s caps
      | x :: _ => if x = c then none else k left s caps

/-- Depth bound for the matcher, far above what any line of the claims
needs. -/
def engineFuel : Nat := 5000

/-- A replacement function, from the captures of a match to text. -/
def Repl := Caps → List Char

/-- Scanner of re.sub: at each position try an anchored match; on a
nonempty match emit the replacement and continue after it; on an empty
match emit the replacement and copy one character; otherwise copy one
character.  The fuel is the remaining length plus one, which each step
stays below. -/
def reSubGo : Nat → Pat → Repl → List Char → List Char → List Char
  | 0, _, _, _, s => s
  | fuel + 1, p, repl, left, s =>
    match matchP engineFuel p left s [] (fun l2 s2 c2 => some (l2, s2, c2)) with
    | some (l2, s2, caps) =>
      if s2.length < s.length then
        repl caps ++ reSubGo fuel p repl l2 s2
      else
        match s with
        | [] => repl caps
        | c :: rest => repl caps ++ c :: reSubGo fuel p repl (c :: left) rest
    | none =>
      match s with
      | [] => []
      | c :: rest => c :: reSubGo fuel p repl (c :: left) rest

/-- re.sub(pattern, repl, s) of the source. -/
def reSub (p : Pat) (repl : Repl) (s : List Char) : List Char :=
  reSubGo (s.length + 1) p repl [] s

/-- A chain of literal characters. -/
def lits (s : String) : Pat := s.toList.foldr (fun c acc => Pat.seq (.lit c) acc) .eps

/-- Concatenation of a pattern list. -/
def pseq (l : List Pat) : Pat := l.foldr Pat.seq .eps

/-- temp_replace of the source: apply the temporary protecting
substitutions, then the general one, then the undo substitutions. -/
def temp_replace (raw : List Char) (temps : List (Pat × Repl))
    (genP : Pat) (genR : Repl) (undos : List (Pat × Repl)) : List Char :=
  let wip := temps.foldl (fun acc pr => reSub pr.1 pr.2 acc) raw
  let wip2 := reSub genP genR wip
  undos.foldl (fun acc pr => reSub pr.1 pr.2 acc) wip2

/-! ### The normalizer patterns (source lines 70 to 152)

Pattern names follow the rule blocks of get_line_contents: True, False,
single-quoted keys, hyphenated keys, opening braces, closing braces,
u-quoted strings, residual quoted words, None.  Suffix T marks a temporary
protecting pattern, G the general pattern, U an undo pattern. -/

/-- Quoted text key followed by one or more arbitrary characters: the
scoping prefix used by the protecting rules (source pattern fragment
where the word text appears between escaped double quotes and a colon). -/
def textAnchor : Pat := pseq [lits "\x22text\x22:\x22", Pat.plus .anyC]

/-- The class of a comma or a closing brace. -/
def commaOrBrace : Pat := Pat.cls false [.ch ',', .ch '\x7d']

/-- Source line 71: protect a True following an escaped newline inside a
text value. -/
def pTrueT : Pat := pseq [.group 1 textAnchor, lits "\x5cn", .group 2 (Pat.plus .wordC),
  lits ": True"]

/-- Source line 72 replacement. -/
def rTrueT : Repl := fun m => getCap m 1 ++ "\x5cn".toList ++ getCap m 2 ++ ": #True#".toList

/-- Source line 73: colon-space-True before a comma or closing brace. -/
def pTrueG : Pat := pseq [lits ": True", .group 1 commaOrBrace]

/-- Source line 73 replacement: quote the True. -/
def rTrueG : Repl := fun m => ": \x22True\x22".toList ++ getCap m 1

/-- Source line 74: undo the protection. -/
def pTrueU : Pat := pseq [.group 1 textAnchor, lits "\x5cn", .group 2 (Pat.plus .wordC),
  lits ": #True#"]

/-- Source line 75 replacement. -/
def rTrueU : Repl := fun m => getCap m 1 ++ "\x5cn".toList ++ getCap m 2 ++ ": True".toList

/-- Source line 77: colon-space-False before a comma or closing brace. -/
def pFalseG : Pat := pseq [lits ": False", .group 1 commaOrBrace]

/-- Source line 77 replacement: quote the False. -/
def rFalseG : Repl := fun m => ": \x22False\x22".toList ++ getCap m 1

/-- Source line 80: protect a single-quoted word key inside a text value. -/
def pKeyT : Pat := pseq [.group 1 textAnchor, .lit '\x27', .group 2 (Pat.plus .wordC),
  lits "\x27:"]

/-- Source line 80 replacement. -/
def rKeyT : Repl := fun m => getCap m 1 ++ "#\x27#".toList ++ getCap m 2 ++ "#\x27#:".toList

/-- Source line 81: a single-quoted word key in key position. -/
def pKeyG : Pat := pseq [.lit '\x27', .group 1 (Pat.plus .wordC), lits "\x27:"]

/-- Source line 81 replacement: double-quote the key. -/
def rKeyG : Repl := fun m => '\x22' :: getCap m 1 ++ "\x22:".toList

/-- Source line 82: undo the protection. -/
def pKeyU : Pat := pseq [.group 1 textAnchor, lits "#\x27#", .group 2 (Pat.plus .wordC),
  lits "#\x27#:"]

/-- Source line 82 replacement. -/
def rKeyU : Repl := fun m => getCap m 1 ++ '\x27' :: getCap m 2 ++ "\x27:".toList

/-- Source line 87: protect a single-quoted one-hyphen key inside a text
value. -/
def pHypT : Pat := pseq [.group 1 textAnchor, .lit '\x27', .group 2 (Pat.plus .wordC),
  .lit '-', .group 3 (Pat.plus .wordC), lits "\x27:"]

/-- Source line 88 replacement. -/
def rHypT : Repl := fun m => getCap m 1 ++ "#\x27#".toList ++ getCap m 2 ++ '-' ::
  getCap m 3 ++ "#\x27#:".toList

/-- Source line 89: a single-quoted key made of two word runs joined by one
hyphen, in key position. -/
def pHypG : Pat := pseq [.lit '\x27', .group 1 (Pat.plus .wordC), .lit '-',
  .group 2 (Pat.plus .wordC), lits "\x27:"]

/-- Source line 89 replacement: double-quote the hyphenated key. -/
def rHypG : Repl := fun m => '\x22' :: getCap m 1 ++ '-' :: getCap m 2 ++ "\x22:".toList

/-- Source line 90: undo the protection. -/
def pHypU : Pat := pseq [.group 1 textAnchor, lits "#\x27#", .group 2 (Pat.plus .wordC),
  .lit '-', .group 3 (Pat.plus .wordC), lits "#\x27#:"]

/-- Source line 91 replacement. -/
def rHypU : Repl := fun m => getCap m 1 ++ '\x27' :: getCap m 2 ++ '-' :: getCap m 3 ++
  "\x27:".toList

/-- The bare quoted-text-key anchor without the any-run. -/
def textColon : Pat := lits "\x22text\x22:\x22"

/-- Source line 100 class: word characters, space, comma, dot, backslash. -/
def wsCls : Pat := Pat.cls false [.word, .ch ' ', .ch ',', .ch '.', .ch '\x5c']

/-- Source line 104 class: dot, colon, space. -/
def dotColSpace : Pat := Pat.cls false [.ch '.', .ch ':', .ch ' ']

/-- Source line 104 anchor: quoted caption key, optional whitespace, then
an opening double quote. -/
def capAnchor : Pat := pseq [lits "\x22caption\x22:", .star .spaceC, .lit '\x22']

/-- Source line 100: protect a double opening brace right after the text
key. -/
def pOb1T : Pat := pseq [.group 1 textColon, .lit '\x7b', .lit '\x7b',
  .group 2 (Pat.plus wsCls)]

/-- Source line 100 replacement. -/
def rOb1T : Repl := fun m => getCap m 1 ++ "#\x7b\x7b#".toList ++ getCap m 2

/-- Source line 101: protect a brace pair spanning a text value. -/
def pOb2T : Pat := pseq [.group 1 textColon, .lit '\x7b', .group 2 (Pat.plus .anyC),
  .lit '\x7d', .group 3 (Pat.plus .anyC), .lit '\x22']

/-- Source line 102 replacement. -/
def rOb2T : Repl := fun m => getCap m 1 ++ "#\x7b#".toList ++ getCap m 2 ++
  "#\x7d#".toList ++ getCap m 3 ++ ['\x22']

/-- Source line 103: protect an opening brace right after the text key. -/
def pOb3T : Pat := pseq [.group 1 textColon, .lit '\x7b', .group 2 (Pat.plus .anyC),
  .lit '\x22']

/-- Source line 103 replacement. -/
def rOb3T : Repl := fun m => getCap m 1 ++ "#\x7b#".toList ++ getCap m 2 ++ ['\x22']

/-- Source line 104: protect a dotted or colonned brace group in a caption
value. -/
def pOb4T : Pat := pseq [.group 1 capAnchor, .lit '\x7b',
  .group 2 (pseq [Pat.plus dotColSpace, Pat.plus .anyC, Pat.plus dotColSpace]), .lit '\x7d']

/-- Source line 105 replacement. -/
def rOb4T : Repl := fun m => getCap m 1 ++ "#\x7b#".toList ++ getCap m 2 ++ "#\x7d#".toList

/-- Source line 106: a double quote immediately followed by an opening
brace. -/
def pObG : Pat := lits "\x22\x7b"

/-- Source line 106 replacement: drop the quote. -/
def rObG : Repl := fun _ => ['\x7b']

/-- Source line 107: undo. -/
def pOb1U : Pat := pseq [.group 1 textColon, lits "#\x7b\x7b#", .group 2 (Pat.plus wsCls)]

/-- Source line 107 replacement. -/
def rOb1U : Repl := fun m => getCap m 1 ++ "\x7b\x7b".toList ++ getCap m 2

/-- Source line 108: undo. -/
def pOb2U : Pat := pseq [.group 1 textColon, lits "#\x7b#", .group 2 (Pat.plus .anyC),
  lits "#\x7d#", .group 3 (Pat.plus .anyC), .lit '\x22']

/-- Source line 109 replacement. -/
def rOb2U : Repl := fun m => getCap m 1 ++ '\x7b' :: getCap m 2 ++ '\x7d' :: getCap m 3 ++
  ['\x22']

/-- Source line 110: undo. -/
def pOb3U : Pat := pseq [.group 1 textColon, lits "#\x7b#", .group 2 (Pat.plus .anyC),
  .lit '\x22']

/-- Source line 110 replacement. -/
def rOb3U : Repl := fun m => getCap m 1 ++ '\x7b' :: getCap m 2 ++ ['\x22']

/-- Source line 111: undo. -/
def pOb4U : Pat := pseq [.group 1 capAnchor, lits "#\x7b#",
  .group 2 (pseq [Pat.plus dotColSpace, Pat.plus .anyC, Pat.plus dotColSpace]),
  lits "#\x7d#"]

/-- Source line 112 replacement. -/
def rOb4U : Repl := fun m => getCap m 1 ++ '\x7b' :: getCap m 2 ++ ['\x7d']

/-- The alternation of the keys text, name and caption (source line 120). -/
def tncAlt : Pat := Pat.alt (lits "text") (Pat.alt (lits "name") (lits "caption"))

/-- Source line 122 class: colon, space, the range from plus to semicolon,
and caret. -/
def punctCls : Pat := Pat.cls false [.ch ':', .ch ' ', .rng '+' ';', .ch '^']

/-- Source line 120: protect a brace pair inside a text, name or caption
value that ends right at the closing quote. -/
def pCb1T : Pat := pseq [.lit '\x22', .group 1 tncAlt,
  .group 2 (pseq [lits "\x22:", .star .spaceC, .lit '\x22', Pat.plus .anyC]),
  .lit '\x7b', .group 3 (Pat.plus .anyC), .lit '\x7d', .lit '\x22']

/-- Source line 121 replacement. -/
def rCb1T : Repl := fun m => '\x22' :: getCap m 1 ++ getCap m 2 ++ "#\x7b#".toList ++
  getCap m 3 ++ "#\x7d#".toList ++ ['\x22']

/-- Source line 122: protect a punctuation run before a closing brace at
the end of a text value that does not open with a brace. -/
def pCb2T : Pat := pseq [.group 1 textColon,
  .group 2 (pseq [.cls true [.ch '\x7b'], Pat.plus .anyC]),
  .group 3 (Pat.plus punctCls), .lit '\x7d', .lit '\x22']

/-- Source line 123 replacement. -/
def rCb2T : Repl := fun m => getCap m 1 ++ getCap m 2 ++ getCap m 3 ++ "#\x7d#\x22".toList

/-- Source line 124: a closing brace and quote before a comma or closing
brace. -/
def pCbG : Pat := pseq [lits "\x7d\x22", .group 1 commaOrBrace]

/-- Source line 124 replacement: drop the quote. -/
def rCbG : Repl := fun m => '\x7d' :: getCap m 1

/-- Source line 125: undo. -/
def pCb1U : Pat := pseq [.lit '\x22', .group 1 tncAlt,
  .group 2 (pseq [lits "\x22:", .star .spaceC, .lit '\x22', Pat.plus .anyC]),
  lits "#\x7b#", .group 3 (Pat.plus .anyC), lits "#\x7d#", .lit '\x22']

/-- Source line 126 replacement. -/
def rCb1U : Repl := fun m => '\x22' :: getCap m 1 ++ getCap m 2 ++ '\x7b' :: getCap m 3 ++
  "\x7d\x22".toList

/-- Source line 127: undo. -/
def pCb2U : Pat := pseq [.group 1 textColon,
  .group 2 (pseq [.cls true [.ch '\x7b'], Pat.plus .anyC]),
  .group 3 (Pat.plus punctCls), lits "#\x7d#", .lit '\x22']

/-- Source line 128 replacement. -/
def rCb2U : Repl := fun m => getCap m 1 ++ getCap m 2 ++ getCap m 3 ++ "\x7d\x22".toList

/-- Source line 131: a double-quoted u-prefixed single-quoted word. -/
def pUstr : Pat := pseq [.lit '\x22', .lit 'u', .lit '\x27', .group 1 (Pat.plus .wordC),
  .lit '\x27', .lit '\x22']

/-- Source line 131 replacement: keep only the word, double-quoted. -/
def rUstr : Repl := fun m => '\x22' :: getCap m 1 ++ ['\x22']

/-- Source line 134: any single-quoted word. -/
def pSqWord : Pat := pseq [.lit '\x27', .group 1 (Pat.plus .wordC), .lit '\x27']

/-- Source line 134 replacement: strip the quotes. -/
def rSqWord : Repl := fun m => getCap m 1

/-- Source line 142: protect a None after sentence punctuation inside a
text value. -/
def pNone1T : Pat := pseq [.group 1 textAnchor,
  .group 2 (Pat.plus (.cls false [.ch '.', .ch '?', .ch ','])),
  .group 3 (.star (.cls false [.word, .ch ' '])), lits "None,"]

/-- Source line 143 replacement. -/
def rNone1T : Repl := fun m => getCap m 1 ++ getCap m 2 ++ getCap m 3 ++ "None#,#".toList

/-- Source line 144: protect a None after an escaped newline inside a text
value. -/
def pNone2T : Pat := pseq [.group 1 textAnchor, lits "\x5cn",
  .group 2 (.star (.cls false [.word, .ch ':', .ch ' '])), lits "None,"]

/-- Source line 145 replacement. -/
def rNone2T : Repl := fun m => getCap m 1 ++ "\x5cn".toList ++ getCap m 2 ++ "None#,#".toList

/-- Source line 146: protect a None after an exclamation mark inside a text
value. -/
def pNone3T : Pat := pseq [.group 1 textAnchor, lits "! None,"]

/-- Source line 146 replacement. -/
def rNone3T : Repl := fun m => getCap m 1 ++ "! None#,#".toList

/-- Source line 147: a None not preceded by a double quote, before a comma
or closing brace. -/
def pNoneG : Pat := pseq [.nlb '\x22', lits "None", .group 1 commaOrBrace]

/-- Source line 147 replacement: quote the None. -/
def rNoneG : Repl := fun m => "\x22None\x22".toList ++ getCap m 1

/-- Source line 148: undo. -/
def pNone1U : Pat := pseq [.group 1 textAnchor,
  .group 2 (Pat.plus (.cls false [.ch '.', .ch '?', .ch ','])),
  .group 3 (.star (.cls false [.word, .ch ' '])), lits "None#,#"]

/-- Source line 149 replacement. -/
def rNone1U : Repl := fun m => getCap m 1 ++ getCap m 2 ++ getCap m 3 ++ "None,".toList

/-- Source line 150: undo. -/
def pNone2U : Pat := pseq [.group 1 textAnchor, lits "\x5cn",
  .group 2 (.star (.cls false [.word, .ch ':', .ch ' '])), lits "None#,#"]

/-- Source line 151 replacement. -/
def rNone2U : Repl := fun m => getCap m 1 ++ "\x5cn".toList ++ getCap m 2 ++ "None,".toList

/-- Source line 152: undo. -/
def pNone3U : Pat := pseq [.group 1 textAnchor, lits "! None#,#"]

/-- Source line 152 replacement. -/
def rNone3U : Repl := fun m => getCap m 1 ++ "! None,".toList

/-- The substitution pipeline of get_line_contents before the parse, in
source order. -/
def normalizeLine (raw : List Char) : List Char :=
  let w1 := temp_replace raw [(pTrueT, rTrueT)] pTrueG rTrueG [(pTrueU, rTrueU)]
  let w2 := reSub pFalseG rFalseG w1
  let w3 := temp_replace w2 [(pKeyT, rKeyT)] pKeyG rKeyG [(pKeyU, rKeyU)]
  let w4 := temp_replace w3 [(pHypT, rHypT)] pHypG rHypG [(pHypU, rHypU)]
  let w5 := temp_replace w4 [(pOb1T, rOb1T), (pOb2T, rOb2T), (pOb3T, rOb3T), (pOb4T, rOb4T)]
    pObG rObG [(pOb1U, rOb1U), (pOb2U, rOb2U), (pOb3U, rOb3U), (pOb4U, rOb4U)]
  let w6 := temp_replace w5 [(pCb1T, rCb1T), (pCb2T, rCb2T)] pCbG rCbG
    [(pCb1U, rCb1U), (pCb2U, rCb2U)]
  let w7 := reSub pUstr rUstr w6
  let w8 := reSub pSqWord rSqWord w7
  temp_replace w8 [(pNone1T, rNone1T), (pNone2T, rNone2T), (pNone3T, rNone3T)]
    pNoneG rNoneG [(pNone1U, rNone1U), (pNone2U, rNone2U), (pNone3U, rNone3U)]

/-! ### Strict JSON parser (json.loads)

The parser accepts the JSON fragment of the data model in the spec:
objects with string keys, string values with the strict escape set,
integers, the lowercase keywords, and null.  Fractional and exponent
number forms and arrays do not occur in any input of the claims (the data
model of the spec has no arrays, and floating point is outside the
embedding), and an invalid backslash escape is rejected exactly as the
strict Python parser rejects it. -/

/-- Skip JSON whitespace. -/
def jWs (s : List Char) : List Char := s.dropWhile isSpaceChar

/-- The strict single-character escapes of JSON. -/
def escChar (c : Char) : Option Char :=
  if c = '\x22' then some '\x22'
  else if c = '\x5c' then some '\x5c'
  else if c = '/' then some '/'
  else if c = 'b' then some '\x08'
  else if c = 'f' then some '\x0c'
  else if c = 'n' then some '\n'
  else if c = 'r' then some '\r'
  else if c = 't' then some '\t'
  else none

/-- Value of one hexadecimal digit. -/
def hexVal (c : Char) : Option Nat :=
  if '0' ≤ c && c ≤ '9' then some (c.toNat - 48)
  else if 'a' ≤ c && c ≤ 'f' then some (c.toNat - 87)
  else if 'A' ≤ c && c ≤ 'F' then some (c.toNat - 55)
  else none

/-- Body of a JSON string after its opening quote: the decoded characters
and the rest after the closing quote; none on an invalid escape or a
missing close. -/
def parseStrBody : List Char → Option (List Char × List Char)
  | [] => none
  | c :: rest =>
    if c = '\x22' then some ([], rest)
    else if c = '\x5c' then
      match rest with
      | [] => none
      | 'u' :: h1 :: h2 :: h3 :: h4 :: rest2 =>
        match hexVal h1, hexVal h2, hexVal h3, hexVal h4 with
        | some a, some b, some c2, some d =>
          match parseStrBody rest2 with
          | none => none
          | some (cs, r) => some (Char.ofNat (((a * 16 + b) * 16 + c2) * 16 + d) :: cs, r)
        | _, _, _, _ => none
      | e :: rest2 =>
        match escChar e with
        | none => none
        | some ec =>
          match parseStrBody rest2 with
          | none => none
          | some (cs, r) => some (ec :: cs, r)
    else
      match parseStrBody rest with
      | none => none
      | some (cs, r) => some (c :: cs, r)

/-- Decimal digits to a natural number. -/
def digitsToNat (l : List Char) : Nat :=
  l.foldl (fun a c => a * 10 + (c.toNat - 48)) 0

/-- Pack a pair list into a field list. -/
def toJFields : List (String × JValue) → JFields
  | [] => .nil
  | (k, v) :: rest => .cons k v (toJFields rest)

mutual

/-- One JSON value and the remaining input; the fuel bounds the nesting
and member count and every use supplies the input length plus one. -/
def parseVal : Nat → List Char → Option (JValue × List Char)
  | 0, _ => none
  | fuel + 1, s =>
    match jWs s with
    | [] => none
    | c :: rest =>
      if c = '\x22' then
        match parseStrBody rest with
        | none => none
        | some (cs, r) => some (.str (String.mk cs), r)
      else if c = '\x7b' then
        match jWs rest with
        | '\x7d' :: r2 => some (.obj .nil, r2)
        | _ =>
          match parseMembers fuel rest with
          | none => none
          | some (prs, r2) => some (.obj (toJFields (pyDict prs)), r2)
      else if c = 't' then
        match rest with
        | 'r' :: 'u' :: 'e' :: r2 => some (.bool true, r2)
        | _ => none
      else if c = 'f' then
        match rest with
        | 'a' :: 'l' :: 's' :: 'e' :: r2 => some (.bool false, r2)
        | _ => none
      else if c = 'n' then
        match rest with
        | 'u' :: 'l' :: 'l' :: r2 => some (.null, r2)
        | _ => none
      else if c = '-' then
        match rest.span (fun d => d.isDigit) with
        | ([], _) => none
        | (ds, r2) =>
          match r2 with
          | '.' :: _ => none
          | 'e' :: _ => none
          | 'E' :: _ => none
          | _ => some (.int (-(digitsToNat ds : Int)), r2)
      else if c.isDigit then
        match (c :: rest).span (fun d => d.isDigit) with
        | (ds, r2) =>
          match r2 with
          | '.' :: _ => none
          | 'e' :: _ => none
          | 'E' :: _ => none
          | _ => some (.int (digitsToNat ds : Int), r2)
      else none

/-- The members of a JSON object after its opening brace, as a pair list
(dict construction applies afterwards), and the rest after the closing
brace. -/
def parseMembers : Nat → List Char → Option (List (String × JValue) × List Char)
  | 0, _ => none
  | fuel + 1, s =>
    match jWs s with
    | '\x22' :: rest =>
      match parseStrBody rest with
      | none => none
      | some (kcs, r1) =>
        match jWs r1 with
        | ':' :: r3 =>
          match parseVal fuel r3 with
          | none => none
          | some (v, r4) =>
            match jWs r4 with
            | ',' :: r6 =>
              match parseMembers fuel r6 with
              | none => none
              | some (prs, r7) => some ((String.mk kcs, v) :: prs, r7)
            | '\x7d' :: r6 => some ([(String.mk kcs, v)], r6)
            | _ => none
        | _ => none
    | _ => none

end

/-- json.loads: a single value followed only by whitespace. -/
def json_loads (s : List Char) : Option JValue :=
  match parseVal (s.length + 1) s with
  | none => none
  | some (v, rest) => if (jWs rest).isEmpty then some v else none

/-- get_line_contents of the source: normalize, then parse; a line the
parser still rejects raises (the MalformedRecordError of the spec, the
JSONDecodeError of the library). -/
def get_line_contents (raw_line : String) : Except PyErr JValue :=
  match json_loads (normalizeLine raw_line.toList) with
  | some v => .ok v
  | none => .error .malformedRecord

/-! ### File passes and the command line entry point

The two passes of the converter are modelled over the list of lines of the
input file.  The column-name set of the first pass is modelled as a
duplicate-free list in discovery order; Python stores it in an unordered
set whose iteration order is not part of these claims. -/

/-- Insert the keys of one record into the set of discovered columns. -/
def setUnion (acc : List String) (ks : List String) : List String :=
  ks.foldl (fun a k => if a.contains k then a else a ++ [k]) acc

/-- get_superset_of_column_names_from_file of the source: skip the first
lines while skip is positive, then union the flattened key sets of the
parsed lines; a parse failure propagates. -/
def get_superset_go : List String → Int → List String → Except PyErr (List String)
  | [], _, acc => .ok acc
  | line :: rest, skip, acc =>
    if skip ≤ 0 then
      match get_line_contents line with
      | .error e => .error e
      | .ok lc =>
        get_superset_go rest skip (setUnion acc ((get_column_names lc "").map Prod.fst))
    else get_superset_go rest (skip - 1) acc

/-- The header-discovery pass. -/
def get_superset_of_column_names_from_file (lines : List String) (skip : Int) :
    Except PyErr (List String) :=
  get_superset_go lines skip []

/-- read_and_write_file of the source, modelled as the list of data rows
written after the header row: skip the first lines while skip is positive,
then one serialized row per parsed line; a failure propagates. -/
def read_and_write_file : List String → List String → Int → Except PyErr (List (List String))
  | [], _, _ => .ok []
  | line :: rest, column_names, skip =>
    if skip ≤ 0 then
      match get_line_contents line with
      | .error e => .error e
      | .ok lc =>
        match get_row lc column_names with
        | .error e => .error e
        | .ok row =>
          match read_and_write_file rest column_names skip with
          | .error e => .error e
          | .ok rows => .ok (row :: rows)
    else read_and_write_file rest column_names (skip - 1)

/-- The main block of the source (lines 280 to 294): it parses the skip
argument but passes the literal 0 to the header pass and omits the skip
argument of the write pass, so the parsed value is never used. -/
def main_model (lines : List String) (skip_arg : Int) :
    Except PyErr (List String × List (List String)) :=
  let _ := skip_arg
  match get_superset_of_column_names_from_file lines 0 with
  | .error e => .error e
  | .ok column_names =>
    match read_and_write_file lines column_names 0 with
    | .error e => .error e
    | .ok rows => .ok (column_names, rows)

/-- The characters before the first occurrence of the needle (the whole
string when absent): Python split at the needle, first part. -/
def splitHeadAux : List Char → List Char → List Char
  | [], _ => []
  | c :: rest, needle =>
    if startsWithL (c :: rest) needle then []
    else c :: splitHeadAux rest needle

/-- The derived output path of the main block: the input path split at the
string dot-json, first part, with dot-csv appended. -/
def csv_file_path (json_file : String) : String :=
  String.mk (splitHeadAux json_file.toList ".json".toList) ++ ".csv"

/-- No occurrence of the needle starts strictly before the end of a: the
hypothesis under which the split keeps all of a. -/
def noEarlyOccur : List Char → List Char → Bool
  | [], _ => true
  | c :: rest, needle => !(startsWithL ((c :: rest) ++ needle) needle) && noEarlyOccur rest needle

theorem splitAtDot_snd_lt :
    ∀ (key a b : List Char), splitAtDot key = some (a, b) → b.length < key.length := by
  intro key
  induction key with
  | nil => intro a b h; simp [splitAtDot] at h
  | cons c rest ih =>
    intro a b h
    by_cases hc : c = '.'
    · simp [splitAtDot, hc] at h
      simp [← h.2]
    · simp only [splitAtDot, if_neg hc] at h
      cases hsub : splitAtDot rest with
      | none => rw [hsub] at h; simp at h
      | some ab =>
        rw [hsub] at h
        obtain ⟨a0, b0⟩ := ab
        simp at h
        have := ih a0 b0 hsub
        simp [← h.2]
        omega

/-! ### String and list helpers -/

theorem toList_mk (l : List Char) : (String.mk l).toList = l := rfl

theorem mk_toList : ∀ (s : String), String.mk s.toList = s
  | ⟨_⟩ => rfl

theorem toList_inj {s t : String} (h : s.toList = t.toList) : s = t := by
  rw [← mk_toList s, ← mk_toList t, h]

theorem toList_append (s t : String) : (s ++ t).toList = s.toList ++ t.toList :=
  String.data_append s t

theorem mk_eq_iff (l : List Char) (s : String) : String.mk l = s ↔ l = s.toList := by
  constructor
  · intro h; rw [← h]; rfl
  · intro h; rw [h, mk_toList]

/-! ### Totality lemmas for get_nested_value on the safe region -/

theorem gnvGo_safe_miss :
    ∀ (fuel : Nat) (key : List Char) (d : JValue), key.length < fuel →
      safeGo fuel d key = true → resolvesGo fuel d key = none →
      gnvGo fuel d key = Except.ok JValue.null := by
  intro fuel
  induction fuel with
  | zero => intro key d h; omega
  | succ fuel ih =>
    intro key d hlen hsafe hmiss
    cases d with
    | null => simp [gnvGo]
    | str s => simp [safeGo] at hsafe
    | int n => simp [safeGo] at hsafe
    | bool b => simp [safeGo] at hsafe
    | obj fs =>
      cases hsp : splitAtDot key with
      | none =>
        simp only [resolvesGo, hsp] at hmiss
        simp [gnvGo, hsp, pyContains, JFields.hasKey, hmiss]
      | some bs =>
        obtain ⟨bk, sk⟩ := bs
        simp only [safeGo, hsp] at hsafe
        simp only [resolvesGo, hsp] at hmiss
        cases hlk : fs.lookup (String.mk bk) with
        | none =>
          simp [gnvGo, hsp, pyContains, JFields.hasKey, hlk]
        | some sub =>
          rw [hlk] at hsafe hmiss
          have hsk : sk.length < fuel := by
            have := splitAtDot_snd_lt key bk sk hsp
            omega
          simp [gnvGo, hsp, pyContains, JFields.hasKey, hlk, pyIndex,
            ih sk sub hsk hsafe hmiss]

theorem gnvGo_hasNull :
    ∀ (fuel : Nat) (key : List Char) (d : JValue), key.length < fuel →
      hasNullGo fuel d key = true → gnvGo fuel d key = Except.ok JValue.null := by
  intro fuel
  induction fuel with
  | zero => intro key d h; omega
  | succ fuel ih =>
    intro key d hlen hnull
    cases d with
    | null => simp [gnvGo]
    | str s => simp [hasNullGo] at hnull
    | int n => simp [hasNullGo] at hnull
    | bool b => simp [hasNullGo] at hnull
    | obj fs =>
      cases hsp : splitAtDot key with
      | none =>
        simp only [hasNullGo, hsp] at hnull
        cases hlk : fs.lookup (String.mk key) with
        | none => rw [hlk] at hnull; simp at hnull
        | some sub =>
          rw [hlk] at hnull
          cases sub <;> simp at hnull
          simp [gnvGo, hsp, pyContains, JFields.hasKey, hlk, pyIndex]
      | some bs =>
        obtain ⟨bk, sk⟩ := bs
        simp only [hasNullGo, hsp] at hnull
        cases hlk : fs.lookup (String.mk bk) with
        | none => rw [hlk] at hnull; simp at hnull
        | some sub =>
          rw [hlk] at hnull
          have hsk : sk.length < fuel := by
            have := splitAtDot_snd_lt key bk sk hsp
            omega
          simp [gnvGo, hsp, pyContains, JFields.hasKey, hlk, pyIndex,
            ih sk sub hsk hnull]

theorem gnvGo_absent :
    ∀ (fuel : Nat) (key : List Char) (d : JValue), key.length < fuel →
      absentGo fuel d key = true → gnvGo fuel d key = Except.ok JValue.null := by
  intro fuel
  induction fuel with
  | zero => intro key d h; omega
  | succ fuel ih =>
    intro key d hlen habs
    cases d with
    | null => simp [gnvGo]
    | str s => simp [absentGo] at habs
    | int n => simp [absentGo] at habs
    | bool b => simp [absentGo] at habs
    | obj fs =>
      cases hsp : splitAtDot key with
      | none =>
        simp only [absentGo, hsp, Option.isNone_iff_eq_none] at habs
        simp [gnvGo, hsp, pyContains, JFields.hasKey, habs]
      | some bs =>
        obtain ⟨bk, sk⟩ := bs
        simp only [absentGo, hsp] at habs
        cases hlk : fs.lookup (String.mk bk) with
        | none =>
          simp [gnvGo, hsp, pyContains, JFields.hasKey, hlk]
        | some sub =>
          rw [hlk] at habs
          have hsk : sk.length < fuel := by
            have := splitAtDot_snd_lt key bk sk hsp
            omega
          simp [gnvGo, hsp, pyContains, JFields.hasKey, hlk, pyIndex,
            ih sk sub hsk habs]

/-! ### Claim C1: totality of get_nested_value on unresolved paths -/

/-- C1, counterexample: on the record with the single pair a -> 1 and the
path a.b, traversal reaches the non-mapping value 1 with the segment b
remaining, and `get_nested_value` raises TypeError (Python evaluates
`"b" not in 1`) instead of returning the missing sentinel. -/
theorem get_nested_value_scalar_raises :
    get_nested_value (JValue.obj (JFields.cons "a" (JValue.int 1) JFields.nil)) "a.b" =
      Except.error PyErr.typeError := rfl

/-- C1, amended: `get_nested_value` returns the missing sentinel (None) and
does not raise for every path that fails to resolve, provided the traversal
meets only mappings and None; when it reaches a non-mapping, non-None value
with further segments remaining it can raise TypeError instead. -/
theorem get_nested_value_total_on_safe (d : JValue) (key : String)
    (hsafe : safeAt d key.toList = true)
    (hmiss : resolvesTo d key.toList = none) :
    get_nested_value d key = Except.ok JValue.null :=
  gnvGo_safe_miss (key.toList.length + 1) key.toList d (Nat.lt_succ_self _) hsafe hmiss

/-- Witness for the amended C1 at a concrete record and path. -/
theorem get_nested_value_total_on_safe_witness :
    safeAt (JValue.obj (JFields.cons "a" (JValue.obj (JFields.cons "b" (JValue.int 1)
        JFields.nil)) JFields.nil)) "x.y".toList = true ∧
    resolvesTo (JValue.obj (JFields.cons "a" (JValue.obj (JFields.cons "b" (JValue.int 1)
        JFields.nil)) JFields.nil)) "x.y".toList = none ∧
    get_nested_value (JValue.obj (JFields.cons "a" (JValue.obj (JFields.cons "b" (JValue.int 1)
        JFields.nil)) JFields.nil)) "x.y" = Except.ok JValue.null :=
  ⟨rfl, rfl, get_nested_value_total_on_safe _ "x.y" rfl rfl⟩

/-! ### Claim C10: a present null leaf and a missing path serialize alike -/

/-- C10: in any successfully serialized row, the cell of a header column
whose path ends at a present null leaf of the record is the empty string,
and so is the cell of a column whose path is absent from the record: the
two cases are indistinguishable in the CSV output. -/
theorem get_row_null_cell :
    ∀ (cols : List String) (r : JValue) (row : List String) (i : Nat),
      get_row r cols = Except.ok row → ∀ (hi : i < cols.length),
      (hasNullAt r (cols[i].toList) = true ∨ absentAt r (cols[i].toList) = true) →
      row[i]? = some "" := by
  intro cols
  induction cols with
  | nil => intro r row i hrow hi; simp at hi
  | cons c rest ih =>
    intro r row i hrow hi hcase
    cases hg : get_nested_value r c with
    | error e => simp [get_row, hg] at hrow
    | ok lv =>
      cases hrest : get_row r rest with
      | error e => simp [get_row, hg, hrest] at hrow
      | ok row2 =>
        simp only [get_row, hg, hrest] at hrow
        cases i with
        | zero =>
          have hnull : get_nested_value r c = Except.ok JValue.null := by
            rcases hcase with hn | ha
            · exact gnvGo_hasNull _ _ r (Nat.lt_succ_self _) hn
            · exact gnvGo_absent _ _ r (Nat.lt_succ_self _) ha
          rw [hg] at hnull
          injection hnull with hlv
          rw [hlv] at hrow
          simp at hrow
          simp [← hrow]
        | succ j =>
          have hj : j < rest.length := by simpa using hi
          have := ih r row2 j hrest hj (by simpa using hcase)
          injection hrow with hrow
          simp [← hrow, this]

/-- Witness for C10: on the record with a single null field a, the row for
the header a, b has the empty cell both at the null leaf a and at the
absent path b. -/
theorem get_row_null_cell_witness :
    get_row (JValue.obj (JFields.cons "a" JValue.null JFields.nil)) ["a", "b"] =
        Except.ok ["", ""] ∧
    hasNullAt (JValue.obj (JFields.cons "a" JValue.null JFields.nil)) "a".toList = true ∧
    absentAt (JValue.obj (JFields.cons "a" JValue.null JFields.nil)) "b".toList = true ∧
    (Except.ok ["", ""] : Except PyErr (List String)) = Except.ok ["", ""] ∧
    ["", ""][0]? = some "" ∧ ["", ""][1]? = some "" :=
  ⟨rfl, rfl, rfl, rfl,
    get_row_null_cell ["a", "b"] (JValue.obj (JFields.cons "a" JValue.null JFields.nil))
      ["", ""] 0 rfl (by decide) (Or.inl rfl),
    get_row_null_cell ["a", "b"] (JValue.obj (JFields.cons "a" JValue.null JFields.nil))
      ["", ""] 1 rfl (by decide) (Or.inr rfl)⟩

/-! ### Helpers for the flattening/extraction inverse (claim C2) -/

theorem splitAtDot_append (a b : List Char) (ha : splitAtDot a = none) :
    splitAtDot (a ++ '.' :: b) = some (a, b) := by
  induction a with
  | nil => simp [splitAtDot]
  | cons c rest ih =>
    by_cases hc : c = '.'
    · simp [splitAtDot, hc] at ha
    · simp only [splitAtDot, if_neg hc] at ha
      cases hsub : splitAtDot rest with
      | none =>
        have h2 := ih hsub
        simp only [List.cons_append, splitAtDot, if_neg hc, List.append_eq, h2]
      | some ab => rw [hsub] at ha; simp at ha

theorem keyOk_split {k : String} (h : keyOk k = true) : splitAtDot k.toList = none := by
  simp only [keyOk, Bool.and_eq_true, Option.isNone_iff_eq_none] at h
  exact h.2

theorem keyOk_ne {k : String} (h : keyOk k = true) : k ≠ "" := by
  simp only [keyOk, Bool.and_eq_true] at h
  simpa using h.1

theorem joinKey_ne (pk k : String) (h : pk ≠ "") :
    joinKey pk k = pk ++ "." ++ k := by
  simp [joinKey, h]

theorem joinKey_empty (k : String) : joinKey "" k = k := rfl

theorem append_dot_toList (pk k : String) :
    (pk ++ "." ++ k).toList = pk.toList ++ '.' :: k.toList := by
  rw [toList_append, toList_append, List.append_assoc]
  rfl

theorem append_dot_ne (pk k : String) : pk ++ "." ++ k ≠ "" := by
  intro h
  have := congrArg String.toList h
  rw [append_dot_toList] at this
  simp at this

theorem string_append_assoc_dot (pk k q : String) :
    (pk ++ "." ++ k) ++ "." ++ q = pk ++ "." ++ (k ++ "." ++ q) := by
  apply toList_inj
  rw [append_dot_toList, append_dot_toList, append_dot_toList, append_dot_toList]
  simp

theorem append_dot_left_inj {pk a b : String} (h : pk ++ "." ++ a = pk ++ "." ++ b) :
    a = b := by
  have h2 : pk.toList ++ '.' :: a.toList = pk.toList ++ '.' :: b.toList := by
    have := congrArg String.toList h
    rwa [append_dot_toList, append_dot_toList] at this
  have h3 : '.' :: a.toList = '.' :: b.toList := List.append_cancel_left h2
  exact toList_inj (by injection h3)

theorem firstSeg_of_key {k : String} (h : keyOk k = true) :
    firstSeg k.toList = k.toList := by
  unfold firstSeg
  rw [keyOk_split h]

theorem firstSeg_of_append {k q : String} (h : keyOk k = true) :
    firstSeg (k ++ "." ++ q).toList = k.toList := by
  rw [append_dot_toList, firstSeg, splitAtDot_append _ _ (keyOk_split h)]

/-- Custom induction principle for field lists giving the inductive
hypothesis for the fields of every mapping value. -/
theorem jfields_induction (motive : JFields → Prop)
    (hnil : motive JFields.nil)
    (hcons : ∀ (k : String) (v : JValue) (rest : JFields),
      (∀ fs2, v = JValue.obj fs2 → motive fs2) → motive rest →
      motive (JFields.cons k v rest)) :
    ∀ fs, motive fs := by
  intro fs
  refine @JFields.rec (fun v => ∀ fs2, v = JValue.obj fs2 → motive fs2) motive
    ?_ ?_ ?_ ?_ ?_ ?_ ?_ fs
  · intro s fs2 h; simp at h
  · intro n fs2 h; simp at h
  · intro b fs2 h; simp at h
  · intro fs2 h; simp at h
  · intro fields ih fs2 h
    injection h with h2
    exact h2 ▸ ih
  · exact hnil
  · intro k v rest ihv ihrest
    exact hcons k v rest ihv ihrest

theorem hasKey_iff_mem_keys (fs : JFields) (k : String) :
    fs.hasKey k = true ↔ k ∈ fs.keys := by
  induction fs using jfields_induction with
  | hnil => simp [JFields.hasKey, JFields.lookup, JFields.keys]
  | hcons k2 v rest ihv ih =>
    by_cases hk : k2 = k
    · simp [JFields.hasKey, JFields.lookup, JFields.keys, hk]
    · simp only [JFields.hasKey, JFields.lookup, JFields.keys, if_neg hk]
      rw [← JFields.hasKey]
      simp [ih, hk]
      intro h
      exact absurd h.symm hk

theorem pyDictIns_not_mem (acc : List (String × JValue)) (k : String) (v : JValue)
    (h : ∀ y ∈ acc, y.1 ≠ k) : pyDictIns acc k v = acc ++ [(k, v)] := by
  have : acc.any (fun kv => kv.1 == k) = false := by
    simp only [List.any_eq_false]
    intro y hy
    simpa using h y hy
  simp [pyDictIns, this]

theorem pyDict_foldl (l : List (String × JValue)) :
    ∀ acc, l.Pairwise (fun a b => a.1 ≠ b.1) → (∀ x ∈ l, ∀ y ∈ acc, y.1 ≠ x.1) →
      List.foldl (fun acc kv => pyDictIns acc kv.1 kv.2) acc l = acc ++ l := by
  induction l with
  | nil => intro acc _ _; simp
  | cons kv rest ih =>
    intro acc hpw hdis
    obtain ⟨k, v⟩ := kv
    rw [List.pairwise_cons] at hpw
    simp only [List.foldl_cons]
    rw [pyDictIns_not_mem acc k v (fun y hy => hdis (k, v) (List.mem_cons_self _ _) y hy)]
    rw [ih (acc ++ [(k, v)]) hpw.2]
    · simp
    · intro x hx y hy
      rcases List.mem_append.mp hy with hy1 | hy2
      · exact hdis x (List.mem_cons_of_mem _ hx) y hy1
      · have : y = (k, v) := by simpa using hy2
        rw [this]
        exact hpw.1 x hx

theorem wfF_cons_parts {k : String} {v : JValue} {rest : JFields}
    (h : wfF (JFields.cons k v rest) = true) :
    keyOk k = true ∧ JFields.hasKey rest k = false ∧ wfV v = true ∧ wfF rest = true := by
  simp only [wfF, Bool.and_eq_true, Bool.not_eq_true'] at h
  exact ⟨h.1.1.1, h.1.1.2, h.1.2, h.2⟩

theorem pyDict_eq_self (l : List (String × JValue))
    (h : l.Pairwise (fun a b => a.1 ≠ b.1)) : pyDict l = l := by
  have := pyDict_foldl l [] h (by simp)
  simpa [pyDict] using this

/-- Flattening under a nonempty parent prefix is the empty-prefix
flattening with the prefix and a dot prepended to every path. -/
theorem flatF_shift : ∀ fs, wfF fs = true → ∀ pk, pk ≠ "" →
    flatF pk fs = (flatF "" fs).map (fun pv => (pk ++ "." ++ pv.1, pv.2)) := by
  intro fs
  induction fs using jfields_induction with
  | hnil => intro _ pk _; simp [flatF]
  | hcons k v rest ihv ihrest =>
    intro hwf pk hpk
    obtain ⟨hk, hnk, hv, hrest⟩ := wfF_cons_parts hwf
    cases v with
    | obj fs2 =>
      simp only [flatF, flatV]
      rw [List.map_append, ihrest hrest pk hpk]
      congr 1
      rw [joinKey_ne pk k hpk, joinKey_empty]
      rw [ihv fs2 rfl hv (pk ++ "." ++ k) (append_dot_ne pk k)]
      rw [ihv fs2 rfl hv k (keyOk_ne hk)]
      rw [List.map_map]
      apply List.map_congr_left
      intro pv _
      simp [Function.comp, string_append_assoc_dot]
    | str s =>
      simp only [flatF]
      rw [List.map_append, ihrest hrest pk hpk]
      simp [joinKey_ne pk k hpk, joinKey_empty]
    | int n =>
      simp only [flatF]
      rw [List.map_append, ihrest hrest pk hpk]
      simp [joinKey_ne pk k hpk, joinKey_empty]
    | bool b =>
      simp only [flatF]
      rw [List.map_append, ihrest hrest pk hpk]
      simp [joinKey_ne pk k hpk, joinKey_empty]
    | null =>
      simp only [flatF]
      rw [List.map_append, ihrest hrest pk hpk]
      simp [joinKey_ne pk k hpk, joinKey_empty]

/-- Every path contributed by the field (k, v) starts with the segment k. -/
theorem field_firstSeg (k : String) (v : JValue) (hk : keyOk k = true)
    (hv : wfV v = true) :
    ∀ p u, ((p, u) ∈ (match v with
      | JValue.obj _ => flatV (joinKey "" k) v
      | _ => [(joinKey "" k, v)])) → firstSeg p.toList = k.toList := by
  cases v with
  | obj fs2 =>
    intro p u hm
    simp only [flatV, joinKey_empty] at hm
    rw [flatF_shift fs2 hv k (keyOk_ne hk)] at hm
    obtain ⟨⟨q, u2⟩, hq, heq⟩ := List.mem_map.mp hm
    obtain ⟨h1, h2⟩ := Prod.mk.injEq .. ▸ heq
    rw [← h1]
    exact firstSeg_of_append hk
  | str s =>
    intro p u hm
    simp [joinKey_empty] at hm
    rw [hm.1]
    exact firstSeg_of_key hk
  | int n =>
    intro p u hm
    simp [joinKey_empty] at hm
    rw [hm.1]
    exact firstSeg_of_key hk
  | bool b =>
    intro p u hm
    simp [joinKey_empty] at hm
    rw [hm.1]
    exact firstSeg_of_key hk
  | null =>
    intro p u hm
    simp [joinKey_empty] at hm
    rw [hm.1]
    exact firstSeg_of_key hk

/-- Every flattened path of a well-formed field list starts with one of its
keys. -/
theorem flatF_firstSeg : ∀ fs, wfF fs = true → ∀ p u, (p, u) ∈ flatF "" fs →
    ∃ k, k ∈ fs.keys ∧ firstSeg p.toList = k.toList := by
  intro fs
  induction fs using jfields_induction with
  | hnil => intro _ p u hm; simp [flatF] at hm
  | hcons k v rest ihv ihrest =>
    intro hwf p u hm
    obtain ⟨hk, hnk, hv, hrest⟩ := wfF_cons_parts hwf
    simp only [flatF] at hm
    rw [List.mem_append] at hm
    rcases hm with hm1 | hm2
    · exact ⟨k, by simp [JFields.keys], field_firstSeg k v hk hv p u hm1⟩
    · obtain ⟨k2, hk2, hfs⟩ := ihrest hrest p u hm2
      exact ⟨k2, by simp [JFields.keys, hk2], hfs⟩

/-- Flattening a well-formed field list yields pairwise distinct paths. -/
theorem flatF_nodup : ∀ fs, wfF fs = true →
    (flatF "" fs).Pairwise (fun a b => a.1 ≠ b.1) := by
  intro fs
  induction fs using jfields_induction with
  | hnil => intro _; simp [flatF]
  | hcons k v rest ihv ihrest =>
    intro hwf
    obtain ⟨hk, hnk, hv, hrest⟩ := wfF_cons_parts hwf
    simp only [flatF]
    rw [List.pairwise_append]
    refine ⟨?_, ihrest hrest, ?_⟩
    · cases v with
      | obj fs2 =>
        simp only [flatV, joinKey_empty]
        rw [flatF_shift fs2 hv k (keyOk_ne hk)]
        rw [List.pairwise_map]
        apply List.Pairwise.imp ?_ (ihv fs2 rfl hv)
        intro a b hab hcontra
        exact hab (append_dot_left_inj hcontra)
      | str s => simp
      | int n => simp
      | bool b => simp
      | null => simp
    · intro a ha b hb
      obtain ⟨p1, u1⟩ := a
      obtain ⟨p2, u2⟩ := b
      have h1 : firstSeg p1.toList = k.toList := field_firstSeg k v hk hv p1 u1 ha
      obtain ⟨k2, hk2, h2⟩ := flatF_firstSeg rest hrest p2 u2 hb
      simp only [ne_eq]
      intro hcontra
      have hkk : k.toList = k2.toList := by rw [← h1, ← h2, hcontra]
      have : k2 ∈ rest.keys := hk2
      rw [← toList_inj hkk] at this
      have := (hasKey_iff_mem_keys rest k).mpr this
      rw [hnk] at this
      exact absurd this (by simp)

theorem flatF_nodup_all (fs : JFields) (h : wfF fs = true) (pk : String) :
    (flatF pk fs).Pairwise (fun a b => a.1 ≠ b.1) := by
  by_cases hpk : pk = ""
  · rw [hpk]; exact flatF_nodup fs h
  · rw [flatF_shift fs h pk hpk, List.pairwise_map]
    apply List.Pairwise.imp ?_ (flatF_nodup fs h)
    intro a b hab hcontra
    exact hab (append_dot_left_inj hcontra)

/-- On well-formed records the dict conversions inside `get_column_names`
never collapse anything: the function computes exactly the flattened pair
list. -/
theorem gcnList_eq_flatF : ∀ fs, wfF fs = true → ∀ pk, gcnList pk fs = flatF pk fs := by
  intro fs
  induction fs using jfields_induction with
  | hnil => intro _ pk; rfl
  | hcons k v rest ihv ihrest =>
    intro hwf pk
    obtain ⟨hk, hnk, hv, hrest⟩ := wfF_cons_parts hwf
    simp only [gcnList, flatF]
    congr 1
    · cases v with
      | obj fs2 =>
        simp only [gcnV, flatV]
        rw [ihv fs2 rfl hv (joinKey pk k)]
        exact pyDict_eq_self _ (flatF_nodup_all fs2 hv (joinKey pk k))
      | str s => rfl
      | int n => rfl
      | bool b => rfl
      | null => rfl
    · exact ihrest hrest pk

theorem get_column_names_eq (d : JValue) (h : wfV d = true) :
    get_column_names d "" = flatV "" d := by
  cases d with
  | obj fs =>
    simp only [get_column_names, gcnV, flatV]
    rw [gcnList_eq_flatF fs h ""]
    exact pyDict_eq_self _ (flatF_nodup fs h)
  | str s => rfl
  | int n => rfl
  | bool b => rfl
  | null => rfl

/-- Extraction skips a leading field whose key is not the first segment of
the path. -/
theorem gnvGo_cons_ne (fuel : Nat) (k : String) (u : JValue) (rest : JFields)
    (p : List Char) (hne : firstSeg p ≠ k.toList) :
    gnvGo (fuel + 1) (JValue.obj (JFields.cons k u rest)) p =
      gnvGo (fuel + 1) (JValue.obj rest) p := by
  cases hsp : splitAtDot p with
  | none =>
    have hkp : k ≠ String.mk p := by
      intro h
      apply hne
      unfold firstSeg
      rw [hsp, h, toList_mk]
    cases hlk : JFields.lookup rest (String.mk p) <;>
      simp [gnvGo, hsp, pyContains, JFields.hasKey, JFields.lookup, if_neg hkp, pyIndex, hlk]
  | some bs =>
    obtain ⟨bk, sk⟩ := bs
    have hkb : k ≠ String.mk bk := by
      intro h
      apply hne
      unfold firstSeg
      rw [hsp, h, toList_mk]
    cases hlk : JFields.lookup rest (String.mk bk) <;>
      simp [gnvGo, hsp, pyContains, JFields.hasKey, JFields.lookup, if_neg hkb, pyIndex, hlk]

/-- Core of the flattening/extraction inverse: on a well-formed record,
extraction at any flattened path returns exactly the recorded leaf value,
for any sufficient fuel. -/
theorem flatF_extract : ∀ fs, wfF fs = true → ∀ (p : String) (v : JValue),
    (p, v) ∈ flatF "" fs → ∀ fuel, p.toList.length < fuel →
    gnvGo fuel (JValue.obj fs) p.toList = Except.ok v := by
  intro fs
  induction fs using jfields_induction with
  | hnil => intro _ p v hm; simp [flatF] at hm
  | hcons k u rest ihv ihrest =>
    intro hwf p v hm fuel hfuel
    obtain ⟨hk, hnk, hu, hrest⟩ := wfF_cons_parts hwf
    obtain ⟨f, rfl⟩ : ∃ f, fuel = f + 1 := ⟨fuel - 1, by omega⟩
    simp only [flatF] at hm
    rw [List.mem_append] at hm
    rcases hm with hm1 | hm2
    · cases u with
      | obj fs2 =>
        simp only [flatV, joinKey_empty] at hm1
        rw [flatF_shift fs2 hu k (keyOk_ne hk)] at hm1
        obtain ⟨⟨q, v2⟩, hq, heq⟩ := List.mem_map.mp hm1
        have hp : p = k ++ "." ++ q := by injection heq with h1 h2; exact h1.symm
        have hv2 : v = v2 := by injection heq with h1 h2; exact h2.symm
        subst hp
        subst hv2
        rw [append_dot_toList]
        have hlen : q.toList.length < f := by
          have hplen : (k ++ "." ++ q).toList.length =
              k.toList.length + 1 + q.toList.length := by
            rw [append_dot_toList]
            simp
            omega
          omega
        have hsp : splitAtDot (k.toList ++ '.' :: q.toList) = some (k.toList, q.toList) :=
          splitAtDot_append k.toList q.toList (keyOk_split hk)
        have hsp2 : splitAtDot (k.data ++ '.' :: q.data) = some (k.data, q.data) := hsp
        have hmk : String.mk k.data = k := mk_toList k
        simp only [gnvGo, hsp, hsp2, pyContains, JFields.hasKey, JFields.lookup, mk_toList,
          hmk, if_pos, eq_self_iff_true, if_true, Option.isSome_some, pyIndex]
        exact ihv fs2 rfl hu q v hq f hlen
      | str s =>
        simp only [List.mem_singleton, joinKey_empty, Prod.mk.injEq] at hm1
        obtain ⟨hp, hv2⟩ := hm1
        subst hp
        subst hv2
        have hsp : splitAtDot p.toList = none := keyOk_split hk
        have hsp2 : splitAtDot p.data = none := hsp
        have hmk : String.mk p.data = p := mk_toList p
        simp [gnvGo, hsp, hsp2, hmk, mk_toList, pyContains, JFields.hasKey,
          JFields.lookup, pyIndex]
      | int n =>
        simp only [List.mem_singleton, joinKey_empty, Prod.mk.injEq] at hm1
        obtain ⟨hp, hv2⟩ := hm1
        subst hp
        subst hv2
        have hsp : splitAtDot p.toList = none := keyOk_split hk
        have hsp2 : splitAtDot p.data = none := hsp
        have hmk : String.mk p.data = p := mk_toList p
        simp [gnvGo, hsp, hsp2, hmk, mk_toList, pyContains, JFields.hasKey,
          JFields.lookup, pyIndex]
      | bool b =>
        simp only [List.mem_singleton, joinKey_empty, Prod.mk.injEq] at hm1
        obtain ⟨hp, hv2⟩ := hm1
        subst hp
        subst hv2
        have hsp : splitAtDot p.toList = none := keyOk_split hk
        have hsp2 : splitAtDot p.data = none := hsp
        have hmk : String.mk p.data = p := mk_toList p
        simp [gnvGo, hsp, hsp2, hmk, mk_toList, pyContains, JFields.hasKey,
          JFields.lookup, pyIndex]
      | null =>
        simp only [List.mem_singleton, joinKey_empty, Prod.mk.injEq] at hm1
        obtain ⟨hp, hv2⟩ := hm1
        subst hp
        subst hv2
        have hsp : splitAtDot p.toList = none := keyOk_split hk
        have hsp2 : splitAtDot p.data = none := hsp
        have hmk : String.mk p.data = p := mk_toList p
        simp [gnvGo, hsp, hsp2, hmk, mk_toList, pyContains, JFields.hasKey,
          JFields.lookup, pyIndex]
    · obtain ⟨k2, hk2, hfs⟩ := flatF_firstSeg rest hrest p v hm2
      have hne : firstSeg p.toList ≠ k.toList := by
        rw [hfs]
        intro hcontra
        have hkk : k2 = k := toList_inj hcontra
        rw [hkk] at hk2
        have := (hasKey_iff_mem_keys rest k).mpr hk2
        rw [hnk] at this
        exact absurd this (by simp)
      rw [gnvGo_cons_ne f k u rest p.toList hne]
      exact ihrest hrest p v hm2 (f + 1) hfuel

/-! ### Claim C2: flattening/extraction inverse -/

/-- C2, counterexample: the record with the single top-level key a.b (a key
containing a dot, legal in JSON) flattens to the pair (a.b, 2), yet
extraction at a.b splits at the dot, misses the key, and returns the
missing sentinel instead of the leaf value. -/
theorem get_column_names_extract_counterexample :
    ("a.b", JValue.int 2) ∈
      get_column_names (JValue.obj (JFields.cons "a.b" (JValue.int 2) JFields.nil)) "" ∧
    get_nested_value (JValue.obj (JFields.cons "a.b" (JValue.int 2) JFields.nil)) "a.b" =
      Except.ok JValue.null :=
  ⟨by decide, rfl⟩

/-- C2, amended: on records whose keys (at every nesting level) are
nonempty, dot-free and pairwise distinct, extraction at every flattened
leaf path returns exactly the associated leaf value, and that value
coincides with the missing sentinel None only when the leaf itself is
null. -/
theorem get_column_names_extract_inverse (d : JValue) (h : wfV d = true)
    (p : String) (v : JValue) (hm : (p, v) ∈ get_column_names d "") :
    get_nested_value d p = Except.ok v ∧
      (v ≠ JValue.null → get_nested_value d p ≠ Except.ok JValue.null) := by
  cases d with
  | obj fs =>
    rw [get_column_names_eq _ h] at hm
    simp only [flatV] at hm
    have h1 := flatF_extract fs h p v hm (p.toList.length + 1) (Nat.lt_succ_self _)
    refine ⟨h1, ?_⟩
    intro hv hcontra
    have h2 : Except.ok (ε := PyErr) v = Except.ok JValue.null := by
      rw [← h1]
      exact hcontra
    injection h2 with h3
    exact hv h3
  | str s => simp [get_column_names, gcnV] at hm
  | int n => simp [get_column_names, gcnV] at hm
  | bool b => simp [get_column_names, gcnV] at hm
  | null => simp [get_column_names, gcnV] at hm

/-- Witness for the amended C2 at a concrete nested record. -/
theorem get_column_names_extract_inverse_witness :
    wfV (JValue.obj (JFields.cons "a" (JValue.obj (JFields.cons "b" (JValue.int 2)
        JFields.nil)) (JFields.cons "c" (JValue.int 3) JFields.nil))) = true ∧
    ("a.b", JValue.int 2) ∈
      get_column_names (JValue.obj (JFields.cons "a" (JValue.obj (JFields.cons "b"
        (JValue.int 2) JFields.nil)) (JFields.cons "c" (JValue.int 3) JFields.nil))) "" ∧
    get_nested_value (JValue.obj (JFields.cons "a" (JValue.obj (JFields.cons "b"
        (JValue.int 2) JFields.nil)) (JFields.cons "c" (JValue.int 3) JFields.nil))) "a.b" =
      Except.ok (JValue.int 2) := by
  refine ⟨rfl, by decide, ?_⟩
  exact (get_column_names_extract_inverse
    (JValue.obj (JFields.cons "a" (JValue.obj (JFields.cons "b" (JValue.int 2)
      JFields.nil)) (JFields.cons "c" (JValue.int 3) JFields.nil)))
    rfl "a.b" (JValue.int 2) (by decide)).1

/-! ### Claim C3: the repair-and-parse scenario -/

set_option maxRecDepth 16384 in
set_option maxHeartbeats 4000000 in
/-- C3, counterexample: on the scenario line of the spec the repair
rewrites the keys and True as expected, but the residual single-quote rule
of source line 134 then strips the quotes of the value of a-b to a bare c,
so the parser rejects the repaired text and get_line_contents raises
instead of returning the scenario mapping. -/
theorem repair_scenario_counterexample :
    String.mk (normalizeLine
        "\x7b\x27id\x27: 1, \x27open\x27: True, \x27tags\x27: \x7b\x27a-b\x27: \x27c\x27\x7d\x7d".toList) =
      "\x7b\x22id\x22: 1, \x22open\x22: \x22True\x22, \x22tags\x22: \x7b\x22a-b\x22: c\x7d\x7d" ∧
    get_line_contents
        "\x7b\x27id\x27: 1, \x27open\x27: True, \x27tags\x27: \x7b\x27a-b\x27: \x27c\x27\x7d\x7d" =
      Except.error PyErr.malformedRecord :=
  ⟨rfl, rfl⟩

set_option maxRecDepth 16384 in
set_option maxHeartbeats 4000000 in
/-- C3, amended: with the inner value double-quoted instead of
single-quoted, repair and parse yield exactly the scenario mapping, the
flattened keys are id, open and tags.a-b with their leaf values, and the
serialized row for that header is the strings 1, True, c. -/
theorem repair_scenario_quoted_variant :
    get_line_contents
        "\x7b\x27id\x27: 1, \x27open\x27: True, \x27tags\x27: \x7b\x27a-b\x27: \x22c\x22\x7d\x7d" =
      Except.ok (JValue.obj (JFields.cons "id" (JValue.int 1) (JFields.cons "open"
        (JValue.str "True") (JFields.cons "tags" (JValue.obj (JFields.cons "a-b"
        (JValue.str "c") JFields.nil)) JFields.nil)))) ∧
    get_column_names (JValue.obj (JFields.cons "id" (JValue.int 1) (JFields.cons "open"
        (JValue.str "True") (JFields.cons "tags" (JValue.obj (JFields.cons "a-b"
        (JValue.str "c") JFields.nil)) JFields.nil)))) "" =
      [("id", JValue.int 1), ("open", JValue.str "True"), ("tags.a-b", JValue.str "c")] ∧
    get_row (JValue.obj (JFields.cons "id" (JValue.int 1) (JFields.cons "open"
        (JValue.str "True") (JFields.cons "tags" (JValue.obj (JFields.cons "a-b"
        (JValue.str "c") JFields.nil)) JFields.nil))))
      ["id", "open", "tags.a-b"] = Except.ok ["1", "True", "c"] :=
  ⟨rfl, rfl, rfl⟩

/-! ### Claim C4: the skip option -/

set_option maxRecDepth 16384 in
set_option maxHeartbeats 4000000 in
/-- C4: the skip functions themselves honor skip equal 2 on a five-line
file (three rows), but the main block never forwards the parsed option: it
passes 0 to the header pass and omits the skip argument of the write pass,
so a run with the option set to 2 still writes all five rows. -/
theorem main_model_ignores_skip_option :
    read_and_write_file (List.replicate 5 "\x7b\x22a\x22: 1\x7d") ["a"] 2 =
      Except.ok (List.replicate 3 ["1"]) ∧
    main_model (List.replicate 5 "\x7b\x22a\x22: 1\x7d") 2 =
      Except.ok (["a"], List.replicate 5 ["1"]) :=
  ⟨rfl, rfl⟩

/-! ### Claim C5: the derived output path -/

/-- C5, counterexample: the source takes the text before the FIRST
occurrence of dot-json, so an input whose name repeats the suffix loses
everything after the first occurrence instead of only the trailing
suffix. -/
theorem csv_file_path_first_occurrence :
    csv_file_path "a.json.json" = "a.csv" ∧ "a.csv" ≠ "a.json.csv" :=
  ⟨rfl, by decide⟩

theorem startsWithL_self : ∀ l : List Char, startsWithL l l = true := by
  intro l
  induction l with
  | nil => rfl
  | cons c rest ih => simp [startsWithL, ih]

theorem splitHeadAux_trailing : ∀ (a b : List Char), b ≠ [] →
    noEarlyOccur a b = true → splitHeadAux (a ++ b) b = a := by
  intro a
  induction a with
  | nil =>
    intro b hb _
    cases b with
    | nil => exact absurd rfl hb
    | cons c rest => simp [splitHeadAux, startsWithL_self]
  | cons c rest ih =>
    intro b hb hno
    simp only [noEarlyOccur, Bool.and_eq_true, Bool.not_eq_true'] at hno
    have h1 : startsWithL (c :: (rest ++ b)) b = false := hno.1
    simp only [List.cons_append, splitHeadAux, List.append_eq, h1]
    simp [ih b hb hno.2]

/-- C5, amended: the derived path is the input up to the first occurrence
of dot-json with dot-csv appended; when the first occurrence is the
trailing suffix (no occurrence starts earlier), this is exactly the
trailing-suffix replacement the claim describes. -/
theorem csv_file_path_trailing (stem : String)
    (h : noEarlyOccur stem.toList ".json".toList = true) :
    csv_file_path (stem ++ ".json") = stem ++ ".csv" := by
  unfold csv_file_path
  rw [toList_append, splitHeadAux_trailing stem.toList ".json".toList (by decide) h,
    mk_toList]

/-- Witness for the amended C5 at a concrete path. -/
theorem csv_file_path_trailing_witness :
    noEarlyOccur "data/business".toList ".json".toList = true ∧
    csv_file_path ("data/business" ++ ".json") = "data/business" ++ ".csv" :=
  ⟨rfl, csv_file_path_trailing "data/business" rfl⟩

/-! ### Claim C6: brace-containing free text -/

set_option maxRecDepth 16384 in
set_option maxHeartbeats 4000000 in
/-- C6: the scenario line of the spec is left untouched by normalization
and parses with the braces preserved inside the string value, and the
brace-holding name value of the other free-text example survives the
protect, strip and restore round of the closing-brace rules verbatim; no
nested object is created in either case. -/
theorem brace_text_preserved_scenario :
    String.mk (normalizeLine
        "\x7b\x22text\x22: \x22Great \x7bplace\x7d!\x22, \x22stars\x22: 5\x7d".toList) =
      "\x7b\x22text\x22: \x22Great \x7bplace\x7d!\x22, \x22stars\x22: 5\x7d" ∧
    get_line_contents "\x7b\x22text\x22: \x22Great \x7bplace\x7d!\x22, \x22stars\x22: 5\x7d" =
      Except.ok (JValue.obj (JFields.cons "text" (JValue.str "Great \x7bplace\x7d!")
        (JFields.cons "stars" (JValue.int 5) JFields.nil))) ∧
    String.mk (normalizeLine
        "\x7b\x22name\x22: \x22Flower \x7bStudio\x7d\x22, \x22stars\x22: 5\x7d".toList) =
      "\x7b\x22name\x22: \x22Flower \x7bStudio\x7d\x22, \x22stars\x22: 5\x7d" ∧
    get_line_contents "\x7b\x22name\x22: \x22Flower \x7bStudio\x7d\x22, \x22stars\x22: 5\x7d" =
      Except.ok (JValue.obj (JFields.cons "name" (JValue.str "Flower \x7bStudio\x7d")
        (JFields.cons "stars" (JValue.int 5) JFields.nil))) :=
  ⟨rfl, rfl, rfl, rfl⟩

set_option maxRecDepth 16384 in
set_option maxHeartbeats 4000000 in
/-- C6, counterexample to the universal statement: on the known hard case
of the source TODO at line 98 (a text value holding a brace group behind
escaped quotes, with no colon inside the braces), the general rule of
source line 106 deletes the escaped quote before the brace, so the string
is not preserved verbatim and the mutated line is then rejected by the
parser. -/
theorem brace_text_mutated_counterexample :
    String.mk (normalizeLine
        "\x7b\x22text\x22:\x22respose :\x5c\x22\x7bsigh\x7d\x5c\x22.\x22,\x22x\x22:1\x7d".toList) =
      "\x7b\x22text\x22:\x22respose :\x5c\x7bsigh\x7d\x5c\x22.\x22,\x22x\x22:1\x7d" ∧
    "\x7b\x22text\x22:\x22respose :\x5c\x7bsigh\x7d\x5c\x22.\x22,\x22x\x22:1\x7d" ≠
      "\x7b\x22text\x22:\x22respose :\x5c\x22\x7bsigh\x7d\x5c\x22.\x22,\x22x\x22:1\x7d" ∧
    get_line_contents
        "\x7b\x22text\x22:\x22respose :\x5c\x22\x7bsigh\x7d\x5c\x22.\x22,\x22x\x22:1\x7d" =
      Except.error PyErr.malformedRecord :=
  ⟨rfl, by decide, rfl⟩

/-! ### Claim C7: parser rejection raises the malformed-record error -/

/-- C7: whenever the parser rejects the normalized text, line processing
fails with exactly the malformed-record error (the JSONDecodeError the
spec names MalformedRecordError), propagated to the caller without retry
and never any other exception kind. -/
theorem get_line_contents_malformed (raw : String)
    (h : json_loads (normalizeLine raw.toList) = none) :
    get_line_contents raw = Except.error PyErr.malformedRecord ∧
      ∀ e, get_line_contents raw = Except.error e → e = PyErr.malformedRecord := by
  have h1 : get_line_contents raw = Except.error PyErr.malformedRecord := by
    unfold get_line_contents
    rw [h]
  refine ⟨h1, ?_⟩
  intro e he
  rw [h1] at he
  injection he with he2
  exact he2.symm

set_option maxRecDepth 16384 in
set_option maxHeartbeats 4000000 in
/-- Witness for C7 at a concrete rejected line. -/
theorem get_line_contents_malformed_witness :
    json_loads (normalizeLine "x".toList) = none ∧
    get_line_contents "x" = Except.error PyErr.malformedRecord :=
  ⟨rfl, (get_line_contents_malformed "x" rfl).1⟩

/-! ### Claim C8: single-quoted key rewriting -/

set_option maxRecDepth 16384 in
set_option maxHeartbeats 4000000 in
/-- C8, counterexample: a key with two internal hyphens matches neither the
word-key rule of source line 81 nor the one-hyphen rule of source line 89,
so the line keeps its single-quoted key and the parser rejects it. -/
theorem multi_hyphen_key_not_rewritten :
    String.mk (normalizeLine "\x7b\x27a-b-c\x27: 1\x7d".toList) =
      "\x7b\x27a-b-c\x27: 1\x7d" ∧
    get_line_contents "\x7b\x27a-b-c\x27: 1\x7d" = Except.error PyErr.malformedRecord :=
  ⟨rfl, rfl⟩

set_option maxRecDepth 16384 in
set_option maxHeartbeats 4000000 in
/-- C8, amended: single-quoted keys made of word characters, or of two
word runs joined by exactly one internal hyphen, are rewritten into
double-quoted keys and such lines parse with the keys preserved. -/
theorem single_quoted_keys_rewritten :
    String.mk (normalizeLine "\x7b\x27id\x27: 1, \x27a-b\x27: 2\x7d".toList) =
      "\x7b\x22id\x22: 1, \x22a-b\x22: 2\x7d" ∧
    get_line_contents "\x7b\x27id\x27: 1, \x27a-b\x27: 2\x7d" =
      Except.ok (JValue.obj (JFields.cons "id" (JValue.int 1)
        (JFields.cons "a-b" (JValue.int 2) JFields.nil))) :=
  ⟨rfl, rfl⟩
